import Mathlib

/-!
Verification development for the llama-nexus Responses service.

The Lean definitions below are a shallow embedding of the Rust sources:

* `src/types/role.rs`      — the `Role` enumeration and its string conversions;
* `src/types/metadata.rs`  — the bounded `Metadata` annotation map, its
  validation, and its JSON storage serialization;
* `src/database.rs`        — the response store (`ResponseSession` rows,
  point lookup, conversation-chain reconstruction, status update);
* `src/responses.rs`       — the Responses/Chat-Completion schema translator.

Modelling conventions:

* Rust `String` is modelled by Lean `String`; Rust's `str::len` counts UTF-8
  bytes, so it is modelled by `String.utf8ByteSize` (not `String.length`,
  which counts Unicode scalar values).
* Machine integers are modelled by `Nat`/`Int`; the `as` casts that can wrap
  (`u64 as i64`, `i64 as i32`) are modelled by `Int.bmod _ (2 ^ w)`, the
  balanced (two's-complement) remainder.
* `f64` values (`temperature`, `top_p`) are only ever stored and copied by
  the sources, never computed with; they are carried as opaque bit patterns.
* `HashMap<String, String>` is modelled by an association list whose key
  list is duplicate-free where map-ness matters; `serde_json`'s
  serialization of such maps (the only serde schema the sources persist) is
  modelled executably by `encodeMap`/`parseMap` below.
-/

/-- Carrier for an IEEE-754 `f64` bit pattern.  The sources only store and
copy these fields, so no arithmetic structure is needed. -/
structure Float64Bits where
  bits : Nat
  deriving DecidableEq

/-- Minimal model of `serde_json::Value`, used only as an opaque payload for
tool parameter schemas (`responses.rs` passes it through uninspected except
for `as_object`). -/
inductive SerdeJsonValue where
  | null : SerdeJsonValue
  | bool (b : Bool) : SerdeJsonValue
  | num (n : Int) : SerdeJsonValue
  | str (s : String) : SerdeJsonValue
  | arr (xs : List SerdeJsonValue) : SerdeJsonValue
  | obj (fields : List (String × SerdeJsonValue)) : SerdeJsonValue

/-- `serde_json::Value::as_object` restricted to what `responses.rs` uses:
yields the field list of an object, `none` otherwise. -/
def SerdeJsonValue.as_object : SerdeJsonValue → Option (List (String × SerdeJsonValue))
  | .obj fields => some fields
  | _ => none

/-- `Role` from `src/types/role.rs`: the closed message-role enumeration. -/
inductive Role where
  | User : Role
  | Assistant : Role
  | System : Role
  deriving DecidableEq

/-- `Role::as_str` from `src/types/role.rs`. -/
def Role.as_str : Role → String
  | .User => "user"
  | .Assistant => "assistant"
  | .System => "system"

/-- `impl From<&str> for Role` (`src/types/role.rs` lines 22-31): the three
known strings map to their variants, everything else defaults to `User`. -/
def Role.from_str_ref (s : String) : Role :=
  if s = "user" then Role.User
  else if s = "assistant" then Role.Assistant
  else if s = "system" then Role.System
  else Role.User

/-- `impl From<Option<String>> for Role` (`src/types/role.rs` lines 33-42). -/
def Role.from_option_string (s : Option String) : Role :=
  if s = some "user" then Role.User
  else if s = some "assistant" then Role.Assistant
  else if s = some "system" then Role.System
  else Role.User

/-- `impl FromStr for Role` (`src/types/role.rs` lines 58-73).  The source
returns `Result<Role, anyhow::Error>` but every branch is `Ok`; on an
unknown string it logs a warning to stderr (an I/O effect outside this
model) and yields `User`. -/
def Role.from_str (s : String) : Except String Role :=
  if s = "user" then Except.ok Role.User
  else if s = "assistant" then Except.ok Role.Assistant
  else if s = "system" then Except.ok Role.System
  else Except.ok Role.User

/-! ### Model of the serde_json wire format for `HashMap<String, String>`

`metadata.rs` persists `Metadata` through `serde_json::to_string` /
`serde_json::from_str` at the concrete schema `HashMap<String, String>`.
The encoder below reproduces serde_json's output for that schema (compact
separators, standard short escapes `\" \\ \b \t \n \f \r`, `\u00XX` for the
remaining control characters); the parser reproduces serde_json's grammar
for the same fragment (string keys/values with the standard escapes,
rejecting raw control characters and lone-surrogate `\uXXXX` escapes;
insignificant whitespace, which the encoder never emits, is not modelled). -/

/-- Lowercase hex digit for a value `< 16`, as emitted by serde_json's
`\u00XX` escapes. -/
def hexDigitChar (n : Nat) : Char :=
  if n < 10 then Char.ofNat (48 + n) else Char.ofNat (87 + n)

/-- serde_json's escaping of one character inside a JSON string literal. -/
def escapeChar (c : Char) : List Char :=
  if c = '"' then ['\\', '"']
  else if c = '\\' then ['\\', '\\']
  else if c = Char.ofNat 8 then ['\\', 'b']
  else if c = Char.ofNat 9 then ['\\', 't']
  else if c = Char.ofNat 10 then ['\\', 'n']
  else if c = Char.ofNat 12 then ['\\', 'f']
  else if c = Char.ofNat 13 then ['\\', 'r']
  else if c.toNat < 32 then
    ['\\', 'u', '0', '0', hexDigitChar (c.toNat / 16), hexDigitChar (c.toNat % 16)]
  else [c]

/-- Escape every character of a string body. -/
def encodeStringChars (s : List Char) : List Char :=
  s.foldr (fun c acc => escapeChar c ++ acc) []

/-- A JSON string literal: quote, escaped body, quote. -/
def encodeString (s : String) : List Char :=
  '"' :: (encodeStringChars s.data ++ ['"'])

/-- The comma-separated `"key":"value"` entries of a JSON object body. -/
def encodeEntries : List (String × String) → List Char
  | [] => []
  | [kv] => encodeString kv.1 ++ ':' :: encodeString kv.2
  | kv :: rest => encodeString kv.1 ++ ':' :: encodeString kv.2 ++ ',' :: encodeEntries rest

/-- serde_json's compact serialization of a string-to-string map. -/
def encodeMap (m : List (String × String)) : List Char :=
  '{' :: (encodeEntries m ++ ['}'])

/-- Value of one hex digit, accepting both cases as serde_json does. -/
def hexVal (c : Char) : Option Nat :=
  if 48 ≤ c.toNat ∧ c.toNat ≤ 57 then some (c.toNat - 48)
  else if 97 ≤ c.toNat ∧ c.toNat ≤ 102 then some (c.toNat - 87)
  else if 65 ≤ c.toNat ∧ c.toNat ≤ 70 then some (c.toNat - 55)
  else none

/-- Parse the body of a JSON string literal (the opening quote already
consumed); returns the decoded characters and the input after the closing
quote.  Raw control characters, bad escapes and lone surrogates fail, as in
serde_json. -/
def parseStringBody : List Char → Option (List Char × List Char)
  | [] => none
  | c :: rest =>
    if c = '"' then some ([], rest)
    else if c = '\\' then
      match rest with
      | [] => none
      | e :: rest2 =>
        if e = '"' then (parseStringBody rest2).map (fun p => ('"' :: p.1, p.2))
        else if e = '\\' then (parseStringBody rest2).map (fun p => ('\\' :: p.1, p.2))
        else if e = '/' then (parseStringBody rest2).map (fun p => ('/' :: p.1, p.2))
        else if e = 'b' then (parseStringBody rest2).map (fun p => (Char.ofNat 8 :: p.1, p.2))
        else if e = 't' then (parseStringBody rest2).map (fun p => (Char.ofNat 9 :: p.1, p.2))
        else if e = 'n' then (parseStringBody rest2).map (fun p => (Char.ofNat 10 :: p.1, p.2))
        else if e = 'f' then (parseStringBody rest2).map (fun p => (Char.ofNat 12 :: p.1, p.2))
        else if e = 'r' then (parseStringBody rest2).map (fun p => (Char.ofNat 13 :: p.1, p.2))
        else if e = 'u' then
          match rest2 with
          | a :: b :: c' :: d :: rest3 =>
            match hexVal a, hexVal b, hexVal c', hexVal d with
            | some ha, some hb, some hc, some hd =>
              let n := ((ha * 16 + hb) * 16 + hc) * 16 + hd
              if 55296 ≤ n ∧ n ≤ 57343 then none
              else (parseStringBody rest3).map (fun p => (Char.ofNat n :: p.1, p.2))
            | _, _, _, _ => none
          | _ => none
        else none
    else if c.toNat < 32 then none
    else (parseStringBody rest).map (fun p => (c :: p.1, p.2))

/-- Parse the entries of a nonempty JSON object body up to and including the
closing brace.  The fuel argument dominates the number of entries; the
top-level caller passes the input length, which always suffices. -/
def parseEntriesLoop : Nat → List Char → Option (List (String × String) × List Char)
  | 0, _ => none
  | fuel + 1, cs =>
    match cs with
    | [] => none
    | c :: cs1 =>
      if c = '"' then
        match parseStringBody cs1 with
        | some (k, c2 :: cs3) =>
          if c2 = ':' then
            match cs3 with
            | c3 :: cs4 =>
              if c3 = '"' then
                match parseStringBody cs4 with
                | some (v, c5 :: cs6) =>
                  if c5 = ',' then
                    (parseEntriesLoop fuel cs6).map
                      (fun p => ((String.mk k, String.mk v) :: p.1, p.2))
                  else if c5 = '}' then some ([(String.mk k, String.mk v)], cs6)
                  else none
                | _ => none
              else none
            | [] => none
          else none
        | _ => none
      else none

/-- Parse a JSON object of strings; returns the entry list in source order
and the remaining input. -/
def parseMap (cs : List Char) : Option (List (String × String) × List Char) :=
  match cs with
  | c :: cs1 =>
    if c = '{' then
      match cs1 with
      | c2 :: cs2 => if c2 = '}' then some ([], cs2) else parseEntriesLoop cs1.length cs1
      | [] => none
    else none
  | [] => none

/-- `HashMap::insert` semantics on the association-list model: replace the
value of an existing key in place, otherwise add the binding. -/
def hashInsert (entries : List (String × String)) (k v : String) :
    List (String × String) :=
  if entries.any (fun kv => kv.1 = k) then
    entries.map (fun kv => if kv.1 = k then (k, v) else kv)
  else entries ++ [(k, v)]

/-- Building a `HashMap` from a sequence of entries (serde's map
deserialization): later duplicates of a key overwrite earlier ones. -/
def buildMap (l : List (String × String)) : List (String × String) :=
  l.foldl (fun acc kv => hashInsert acc kv.1 kv.2) []

/-! ### `src/types/metadata.rs` -/

/-- `MetadataError` from `src/types/metadata.rs`. -/
inductive MetadataError where
  | TooManyKeys : MetadataError
  | KeyTooLong (len : Nat) : MetadataError
  | ValueTooLong (len : Nat) : MetadataError
  deriving DecidableEq

/-- `Metadata` from `src/types/metadata.rs`: a wrapper around
`HashMap<String, String>`, modelled as its entry list. -/
structure Metadata where
  entries : List (String × String)
  deriving DecidableEq

/-- The per-entry part of `Metadata::validate`: first offending entry wins.
Rust iterates the map in `HashMap` order; the model iterates in list order
(no claim depends on which offending entry is reported). -/
def validateEntries : List (String × String) → Except MetadataError Unit
  | [] => Except.ok ()
  | (k, v) :: rest =>
    if k.utf8ByteSize > 64 then Except.error (MetadataError.KeyTooLong k.utf8ByteSize)
    else if v.utf8ByteSize > 512 then Except.error (MetadataError.ValueTooLong v.utf8ByteSize)
    else validateEntries rest

/-- `Metadata::validate` (`src/types/metadata.rs` lines 84-99). -/
def Metadata.validate (m : Metadata) : Except MetadataError Unit :=
  if m.entries.length > 16 then Except.error MetadataError.TooManyKeys
  else validateEntries m.entries

/-- `Metadata::from_map` (`src/types/metadata.rs` lines 25-29): wrap the map
and run the full validation. -/
def Metadata.from_map (map : List (String × String)) : Except MetadataError Metadata :=
  match (Metadata.mk map).validate with
  | Except.ok _ => Except.ok (Metadata.mk map)
  | Except.error e => Except.error e

/-- `HashMap::contains_key` on the model. -/
def Metadata.containsKey (m : Metadata) (key : String) : Bool :=
  m.entries.any (fun kv => kv.1 = key)

/-- `Metadata::insert` (`src/types/metadata.rs` lines 32-46), translated in
state-passing style for `&mut self -> Result<(), _>`: the returned pair is
the map after the call and the error, if any.  All three checks precede the
mutation, so every error leaves the map untouched. -/
def Metadata.insert (m : Metadata) (key value : String) :
    Metadata × Option MetadataError :=
  if 16 ≤ m.entries.length ∧ ¬ (m.containsKey key = true) then
    (m, some MetadataError.TooManyKeys)
  else if key.utf8ByteSize > 64 then (m, some (MetadataError.KeyTooLong key.utf8ByteSize))
  else if value.utf8ByteSize > 512 then (m, some (MetadataError.ValueTooLong value.utf8ByteSize))
  else (Metadata.mk (hashInsert m.entries key value), none)

/-- `Metadata::get` (`HashMap::get` on the model). -/
def Metadata.get (m : Metadata) (key : String) : Option String :=
  (m.entries.find? (fun kv => kv.1 = key)).map (fun kv => kv.2)

/-- `Metadata::len`. -/
def Metadata.len (m : Metadata) : Nat :=
  m.entries.length

/-- `Metadata::to_json` (`src/types/metadata.rs` lines 116-118):
`serde_json::to_string(&self.0)`.  Serializing a string map never fails, so
the `Result` collapses to the string itself. -/
def Metadata.to_json (m : Metadata) : String :=
  String.mk (encodeMap m.entries)

/-- `Metadata::from_json` (`src/types/metadata.rs` lines 120-125):
deserialize the `HashMap` and wrap it WITHOUT re-validating — the documented
trust boundary for data already in the store. -/
def Metadata.from_json (s : String) : Option Metadata :=
  match parseMap s.data with
  | some (entries, []) => some (Metadata.mk (buildMap entries))
  | _ => none

/-- The custom `impl Deserialize for Metadata` (`src/types/metadata.rs`
lines 8-16): deserialize the raw `HashMap`, then run `from_map`, so the full
validation is applied.  This is the path `database.rs::get_response` takes
via `serde_json::from_str::<Metadata>`. -/
def Metadata.deserialize (s : String) : Option Metadata :=
  match parseMap s.data with
  | some (entries, []) =>
    match Metadata.from_map (buildMap entries) with
    | Except.ok m => some m
    | Except.error _ => none
  | _ => none

/-- The metadata-column load in `database.rs::get_response` (lines 273-278):
a `NULL` column is no metadata, a present column is deserialized through
`Metadata`'s validating `Deserialize` impl, and a deserialization failure
fails the whole row fetch (`none` here). -/
def get_response_metadata (column : Option String) : Option (Option Metadata) :=
  match column with
  | none => some none
  | some s => (Metadata.deserialize s).map some

/-! ### `src/database.rs`

The store is modelled at the level of its logical row sets.  A
`ResponseSession` row's `metadata` TEXT column holds the serde serialization
of the `Option Metadata` value carried here; that (de)serialization path is
modelled separately by `Metadata.to_json` / `Metadata.deserialize` /
`get_response_metadata` above, and the chain-reconstruction claims are about
rows whose columns parse, which `store_response` guarantees by construction. -/

/-- `ResponseSession` from `src/database.rs` lines 6-28. -/
structure ResponseSession where
  id : String
  object : String
  created_at : Int
  status : String
  model : String
  previous_response_id : Option String
  instructions : Option String
  max_output_tokens : Option Int
  temperature : Option Float64Bits
  top_p : Option Float64Bits
  store : Bool
  metadata : Option Metadata
  user_id : Option String
  safety_identifier : Option String
  prompt_cache_key : Option String
  usage_input_tokens : Option Int
  usage_output_tokens : Option Int
  usage_total_tokens : Option Int
  error : Option String
  incomplete_details : Option String
  deriving DecidableEq

/-- `database::InputItem` (`src/database.rs` lines 30-38). -/
structure DbInputItem where
  id : String
  response_id : String
  item_type : String
  role : Option Role
  content : String
  created_at : Int
  deriving DecidableEq

/-- `database::OutputItem` (`src/database.rs` lines 40-49). -/
structure DbOutputItem where
  id : String
  response_id : String
  item_type : String
  role : Option Role
  content : String
  status : String
  created_at : Int
  deriving DecidableEq

/-- The three row sets managed by `DatabaseManager`.  `responses` is kept in
insertion order (SQLite appends; `previous_response_id` has a foreign-key
constraint to an existing row, `id` is the primary key). -/
structure DatabaseState where
  responses : List ResponseSession
  input_items : List DbInputItem
  output_items : List DbOutputItem
  deriving DecidableEq

/-- `DatabaseManager::get_response` (`src/database.rs` lines 257-305):
point lookup of the row whose primary key matches. -/
def get_response (db : DatabaseState) (response_id : String) : Option ResponseSession :=
  db.responses.find? (fun r => r.id = response_id)

/-- The `while let` loop of `get_conversation_history` (`src/database.rs`
lines 311-318), with the store lookups counted in the second component.
The Rust loop is unbounded; the fuel argument is a modelling artifact that
dominates the number of iterations of any terminating execution (visited
ids are pairwise distinct — proved below — so `responses.length + 1`, the
value every caller in this file passes, always suffices). -/
def historyLoop (db : DatabaseState) : Nat → Option String → List ResponseSession × Nat
  | 0, _ => ([], 0)
  | _, none => ([], 0)
  | fuel + 1, some id =>
    match get_response db id with
    | some r =>
      let p := historyLoop db fuel r.previous_response_id
      (r :: p.1, p.2 + 1)
    | none => ([], 1)

/-- `DatabaseManager::get_conversation_history` (`src/database.rs` lines
307-323): walk the `previous_response_id` links from the given id, then
reverse into chronological (oldest-first) order. -/
def get_conversation_history (db : DatabaseState) (response_id : String) :
    List ResponseSession :=
  (historyLoop db (db.responses.length + 1) (some response_id)).1.reverse

/-- Number of store lookups `get_conversation_history` issues. -/
def historyLookups (db : DatabaseState) (response_id : String) : Nat :=
  (historyLoop db (db.responses.length + 1) (some response_id)).2

/-- `DatabaseManager::update_response_status` (`src/database.rs` lines
405-415): `UPDATE responses SET status = ?1 WHERE id = ?2` — only the
`status` column of rows with the matching primary key is written. -/
def update_response_status (db : DatabaseState) (response_id status : String) :
    DatabaseState :=
  { db with
    responses := db.responses.map (fun r =>
      if r.id = response_id then { r with status := status } else r) }

/-- Big-step semantics of the `get_conversation_history` loop, exactly as
the spec describes the walk: follow `previous_response_id` from the given
id, recording each fetched `Response` newest-first; stop on a lookup miss or
an absent link.  A derivation exists precisely when the Rust loop
terminates, and its list is the loop's visitation order. -/
inductive VisitRel (db : DatabaseState) : Option String → List ResponseSession → Prop where
  | terminated : VisitRel db none []
  | missing (id : String) (h : get_response db id = none) : VisitRel db (some id) []
  | step (id : String) (r : ResponseSession) (rest : List ResponseSession)
      (hfind : get_response db id = some r)
      (htail : VisitRel db r.previous_response_id rest) :
      VisitRel db (some id) (r :: rest)

/-- The store's write-time shape (primary key uniqueness plus the
`previous_response_id` foreign key under append-only inserts): ids are
pairwise distinct and every parent link points to a strictly earlier row. -/
def StoreWellFormed (rs : List ResponseSession) : Prop :=
  (rs.map (fun r => r.id)).Nodup ∧
  ∀ i : Fin rs.length, ∀ p : String,
    (rs.get i).previous_response_id = some p →
    ∃ j : Fin rs.length, j.val < i.val ∧ (rs.get j).id = p

/-! ### External `endpoints::chat` types

`responses.rs` depends on the `endpoints` crate.  The structures below model
only the shape that crate exposes and `responses.rs` reads or writes: the
chat request message variants, the request struct's bound fields (the rest
are filled by `..Default::default()` and never read by any claim), and the
completion result object. -/

/-- `endpoints::chat::ChatCompletionSystemMessage` (constructed via
`new(content, name)`). -/
structure ChatCompletionSystemMessage where
  content : String
  name : Option String

/-- `endpoints::chat::ChatCompletionUserMessageContent`; only the `Text`
variant is built by this repository, `Parts` carries an opaque payload. -/
inductive ChatCompletionUserMessageContent where
  | Text (text : String) : ChatCompletionUserMessageContent
  | Parts (parts : List SerdeJsonValue) : ChatCompletionUserMessageContent

/-- `endpoints::chat::ChatCompletionUserMessage`. -/
structure ChatCompletionUserMessage where
  content : ChatCompletionUserMessageContent
  name : Option String

/-- `endpoints::chat::ChatCompletionAssistantMessage` (only carried through
as conversation history by this repository). -/
structure ChatCompletionAssistantMessage where
  content : Option String
  name : Option String

/-- `endpoints::chat::ChatCompletionToolMessage` (history passthrough only). -/
structure ChatCompletionToolMessage where
  content : String
  tool_call_id : Option String

/-- `endpoints::chat::ChatCompletionRequestMessage`. -/
inductive ChatCompletionRequestMessage where
  | System (m : ChatCompletionSystemMessage) : ChatCompletionRequestMessage
  | User (m : ChatCompletionUserMessage) : ChatCompletionRequestMessage
  | Assistant (m : ChatCompletionAssistantMessage) : ChatCompletionRequestMessage
  | Tool (m : ChatCompletionToolMessage) : ChatCompletionRequestMessage

/-- `endpoints::chat::ToolFunction`. -/
structure ToolFunction where
  name : String
  description : Option String
  parameters : Option (List (String × SerdeJsonValue))

/-- `endpoints::chat::Tool` (constructed via `Tool::new(ToolFunction)`). -/
structure Tool where
  function : ToolFunction

/-- `endpoints::chat::ToolChoice` — named `ChatToolChoice` here because the
Responses schema in this repository defines its own distinct `ToolChoice`. -/
inductive ChatToolChoice where
  | Auto : ChatToolChoice
  | None : ChatToolChoice
  | Required : ChatToolChoice

/-- The fields of `endpoints::chat::ChatCompletionRequest` that
`to_chat_completion_request` binds; the remaining fields come from
`..Default::default()` and are never read by the claims. -/
structure ChatCompletionRequest where
  model : Option String
  messages : List ChatCompletionRequestMessage
  temperature : Option Float64Bits
  top_p : Option Float64Bits
  max_completion_tokens : Option Int
  stream : Option Bool
  tools : Option (List Tool)
  tool_choice : Option ChatToolChoice
  user : Option String

/-- `endpoints::chat::ChatCompletionObjectMessage` — the field
`responses.rs` reads is `content : Option<String>`. -/
structure ChatCompletionObjectMessage where
  content : Option String

/-- `endpoints::chat::ChatCompletionObjectChoice`. -/
structure ChatCompletionObjectChoice where
  message : ChatCompletionObjectMessage

/-- `endpoints::chat::Usage` — the three `u64` counters, as `Nat` values
(claims that depend on the `as i64` wrap carry explicit bounds). -/
structure ChatUsage where
  prompt_tokens : Nat
  completion_tokens : Nat
  total_tokens : Nat

/-- `endpoints::chat::ChatCompletionObject` — the fields read by the
`From` impl in `responses.rs`. -/
structure ChatCompletionObject where
  id : String
  created : Nat
  model : String
  choices : List ChatCompletionObjectChoice
  usage : ChatUsage

/-! ### `src/responses.rs` — schema types -/

/-- `ImageUrl` from `src/responses.rs`. -/
structure ImageUrl where
  url : String

/-- `InputContent` from `src/responses.rs` lines 65-79. -/
inductive InputContent where
  | Text (text : String) : InputContent
  | Image (image_url : ImageUrl) (detail : Option String) : InputContent
  | File (file_id : String) (purpose : Option String) : InputContent

/-- `responses::InputItem` (`src/responses.rs` lines 55-63). -/
structure InputItem where
  item_type : String
  role : Option Role
  content : InputContent

/-- `InputTypes` from `src/responses.rs` lines 48-53. -/
inductive InputTypes where
  | Text (s : String) : InputTypes
  | Array (items : List InputItem) : InputTypes

/-- `FunctionTool` from `src/responses.rs`. -/
structure FunctionTool where
  name : String
  description : Option String
  parameters : Option SerdeJsonValue

/-- `WebSearchTool`, `FileSearchTool`, `CodeInterpreterTool` payloads. -/
structure FileSearchTool where
  file_ids : Option (List String)

/-- `ToolData` from `src/responses.rs` lines 94-109. -/
inductive ToolData where
  | Function (function : FunctionTool) : ToolData
  | WebSearch : ToolData
  | FileSearch (file_search : FileSearchTool) : ToolData
  | CodeInterpreter : ToolData

/-- `ResponseTool` from `src/responses.rs` lines 86-92. -/
structure ResponseTool where
  tool_type : String
  tool_data : ToolData

/-- `FunctionChoice` from `src/responses.rs`. -/
structure FunctionChoice where
  name : String

/-- The Responses-side `ToolChoice` (`src/responses.rs` lines 132-139). -/
inductive ToolChoice where
  | Auto : ToolChoice
  | None : ToolChoice
  | Required : ToolChoice
  | Function (function : FunctionChoice) : ToolChoice

/-- `ToolCallFunction` from `src/responses.rs`. -/
structure ToolCallFunction where
  name : String
  arguments : String

/-- `OutputContentData` from `src/responses.rs` lines 214-226. -/
inductive OutputContentData where
  | Text (text : String) (annots : Option (List SerdeJsonValue)) : OutputContentData
  | ToolCall (id : String) (function : ToolCallFunction) : OutputContentData

/-- `OutputContent` from `src/responses.rs` lines 206-212. -/
structure OutputContent where
  content_type : String
  content_data : OutputContentData

/-- `responses::OutputItem` (`src/responses.rs` lines 194-204). -/
structure OutputItem where
  id : String
  item_type : String
  status : String
  role : Option Role
  content : Option (List OutputContent)

/-- `ResponseError` from `src/responses.rs`. -/
structure ResponseError where
  error_type : String
  code : String
  message : String
  param : Option String

/-- `IncompleteDetails` from `src/responses.rs`. -/
structure IncompleteDetails where
  incomplete_type : String
  reason : Option String

/-- `TokenDetails` from `src/responses.rs`. -/
structure TokenDetails where
  cached_tokens : Option Int
  reasoning_tokens : Option Int

/-- `Usage` from `src/responses.rs` lines 252-261. -/
structure Usage where
  input_tokens : Int
  output_tokens : Int
  total_tokens : Int
  input_tokens_details : Option TokenDetails
  output_tokens_details : Option TokenDetails

/-- `Reasoning` from `src/responses.rs`. -/
structure Reasoning where
  effort : Option String
  summary : Option String
  encrypted_content : Option String

/-- `ResponseObject` from `src/responses.rs` lines 146-192. -/
structure ResponseObject where
  id : String
  object : String
  created_at : Int
  model : String
  status : String
  previous_response_id : Option String
  instructions : Option String
  max_output_tokens : Option Int
  temperature : Option Float64Bits
  top_p : Option Float64Bits
  store : Option Bool
  metadata : Option Metadata
  user : Option String
  safety_identifier : Option String
  prompt_cache_key : Option String
  tools : Option (List ResponseTool)
  tool_choice : Option ToolChoice
  parallel_tool_calls : Option Bool
  output : List OutputItem
  error : Option ResponseError
  incomplete_details : Option IncompleteDetails
  usage : Option Usage
  reasoning : Option Reasoning
  truncation : Option String
  verbosity : Option String

/-- `ResponseRequest` from `src/responses.rs` lines 5-46.  The Rust field
`include` is spelled `include_` (Lean keyword). -/
structure ResponseRequest where
  model : String
  input : Option InputTypes
  instructions : Option String
  previous_response_id : Option String
  max_output_tokens : Option Int
  temperature : Option Float64Bits
  top_p : Option Float64Bits
  stream : Option Bool
  store : Option Bool
  metadata : Option Metadata
  user : Option String
  safety_identifier : Option String
  prompt_cache_key : Option String
  tools : Option (List ResponseTool)
  tool_choice : Option ToolChoice
  parallel_tool_calls : Option Bool
  include_ : Option (List String)
  background : Option Bool
  verbosity : Option String
  truncation : Option String

/-- `ResponseRequest::to_chat_completion_request` (`src/responses.rs` lines
306-413): history first, then the request's own instructions as a system
message, then the converted input; function tools and the tool choice are
mapped, non-function tools dropped; scalars are passed through, with
`max_output_tokens` cast by `as i32`. -/
def ResponseRequest.to_chat_completion_request (req : ResponseRequest)
    (conversation_history : List ChatCompletionRequestMessage) :
    ChatCompletionRequest :=
  let messages := conversation_history
  let messages := messages ++
    (match req.instructions with
     | some instructions =>
       [ChatCompletionRequestMessage.System ⟨instructions, none⟩]
     | none => [])
  let messages :=
    match req.input with
    | none => messages
    | some (InputTypes.Text text) =>
      messages ++
        [ChatCompletionRequestMessage.User
          ⟨ChatCompletionUserMessageContent.Text text, none⟩]
    | some (InputTypes.Array items) =>
      items.foldl (fun acc item =>
        match item.content with
        | InputContent.Text text =>
          match (item.role).getD Role.User with
          | Role.User =>
            acc ++ [ChatCompletionRequestMessage.User
              ⟨ChatCompletionUserMessageContent.Text text, none⟩]
          | Role.System =>
            acc ++ [ChatCompletionRequestMessage.System ⟨text, none⟩]
          | _ =>
            acc ++ [ChatCompletionRequestMessage.User
              ⟨ChatCompletionUserMessageContent.Text text, none⟩]
        | _ => acc) messages
  let tools := req.tools.map (fun response_tools =>
    response_tools.filterMap (fun tool =>
      match tool.tool_data with
      | ToolData.Function function =>
        some (Tool.mk
          ⟨function.name, function.description,
           (function.parameters).bind SerdeJsonValue.as_object⟩)
      | _ => none))
  let tool_choice := req.tool_choice.map (fun choice =>
    match choice with
    | ToolChoice.Auto => ChatToolChoice.Auto
    | ToolChoice.None => ChatToolChoice.None
    | ToolChoice.Required => ChatToolChoice.Required
    | ToolChoice.Function _ => ChatToolChoice.Auto)
  { model := some req.model
    messages := messages
    temperature := req.temperature
    top_p := req.top_p
    max_completion_tokens := req.max_output_tokens.map (fun t => Int.bmod t (2 ^ 32))
    stream := req.stream
    tools := tools
    tool_choice := tool_choice
    user := req.user }

/-- `impl From<ChatCompletionObject> for ResponseObject` (`src/responses.rs`
lines 416-470).  Each output item's id comes from
`ResponseRequest::generate_message_id()`, a fresh UUID per call; the
nondeterministic supply is abstracted as the function `genId` of the
choice's position.  `u64 as i64` casts are the balanced remainder. -/
def ResponseObject.from_chat_completion (genId : Nat → String)
    (completion : ChatCompletionObject) : ResponseObject :=
  let output := completion.choices.enum.map (fun ic =>
    let content := [OutputContent.mk "output_text"
      (OutputContentData.Text ((ic.2.message.content).getD "") none)]
    OutputItem.mk (genId ic.1) "message" "completed" (some Role.Assistant)
      (some content))
  { id := completion.id
    object := "response"
    created_at := Int.bmod (completion.created : Int) (2 ^ 64)
    model := completion.model
    status := "completed"
    previous_response_id := none
    instructions := none
    max_output_tokens := none
    temperature := none
    top_p := none
    store := some true
    metadata := none
    user := none
    safety_identifier := none
    prompt_cache_key := none
    tools := none
    tool_choice := none
    parallel_tool_calls := none
    output := output
    error := none
    incomplete_details := none
    usage := some
      { input_tokens := Int.bmod (completion.usage.prompt_tokens : Int) (2 ^ 64)
        output_tokens := Int.bmod (completion.usage.completion_tokens : Int) (2 ^ 64)
        total_tokens := Int.bmod (completion.usage.total_tokens : Int) (2 ^ 64)
        input_tokens_details := none
        output_tokens_details := none }
    reasoning := none
    truncation := none
    verbosity := none }

/-- Modelled from the spec (§4.4 step 3), for comparison with the source
translation: the chat messages one structured input item should contribute —
a text item becomes exactly one message chosen by its declared role
(`System` → system message, anything else including an unset role → user
message), and a non-text item (image, file) contributes nothing. -/
def specItemMessages (item : InputItem) : List ChatCompletionRequestMessage :=
  match item.content with
  | InputContent.Text text =>
    match (item.role).getD Role.User with
    | Role.System => [ChatCompletionRequestMessage.System ⟨text, none⟩]
    | _ =>
      [ChatCompletionRequestMessage.User
        ⟨ChatCompletionUserMessageContent.Text text, none⟩]
  | _ => []

/-! ### Lemmas about the conversation-chain walk -/

/-- A successful point lookup returns a row whose id is the requested one. -/
theorem get_response_id_eq {db : DatabaseState} {id : String} {r : ResponseSession}
    (h : get_response db id = some r) : r.id = id := by
  have := List.find?_some h
  exact of_decide_eq_true this

/-- A successful point lookup returns a member of the store. -/
theorem get_response_mem {db : DatabaseState} {id : String} {r : ResponseSession}
    (h : get_response db id = some r) : r ∈ db.responses :=
  List.mem_of_find?_eq_some h

/-- The walk relation is deterministic: the loop's behaviour is a function
of the store and the starting id. -/
theorem visit_det {db : DatabaseState} {o : Option String}
    {l₁ l₂ : List ResponseSession}
    (h₁ : VisitRel db o l₁) (h₂ : VisitRel db o l₂) : l₁ = l₂ := by
  induction h₁ generalizing l₂ with
  | terminated =>
    cases h₂ with
    | terminated => rfl
  | missing id h =>
    cases h₂ with
    | missing _ _ => rfl
    | step _ r rest hfind _ => rw [h] at hfind; cases hfind
  | step id r rest hfind htail ih =>
    cases h₂ with
    | missing _ h => rw [h] at hfind; cases hfind
    | step _ r' rest' hfind' htail' =>
      rw [hfind] at hfind'
      cases hfind'
      rw [ih htail']

/-- Every nonempty suffix of a walk trace is itself a walk trace, started at
its head's id. -/
theorem visit_suffix {db : DatabaseState} {o : Option String}
    {l : List ResponseSession} (h : VisitRel db o l) :
    ∀ r t, (r :: t) <:+ l → VisitRel db (some r.id) (r :: t) := by
  induction h with
  | terminated =>
    intro r t hs
    cases List.suffix_nil.mp hs
  | missing id hmiss =>
    intro r t hs
    cases List.suffix_nil.mp hs
  | step id r0 rest hfind htail ih =>
    intro r t hs
    rcases List.suffix_cons_iff.mp hs with heq | hs'
    · injection heq with h1 h2
      subst h1; subst h2
      have hid : r.id = id := get_response_id_eq hfind
      rw [hid]
      exact VisitRel.step _ _ _ hfind htail
    · exact ih r t hs'

/-- The ids visited by a terminating walk are pairwise distinct: a repeat
would make the deterministic walk loop forever, contradicting the finite
derivation. -/
theorem visit_ids_nodup {db : DatabaseState} {o : Option String}
    {l : List ResponseSession} (h : VisitRel db o l) :
    (l.map (fun r => r.id)).Nodup := by
  induction h with
  | terminated => simp
  | missing id hmiss => simp
  | step id r rest hfind htail ih =>
    rw [List.map_cons, List.nodup_cons]
    refine ⟨?_, ih⟩
    intro hmem
    obtain ⟨r', hr'm, hr'id⟩ := List.mem_map.mp hmem
    obtain ⟨u, w, hw⟩ := List.append_of_mem hr'm
    have hsufrest : (r' :: w) <:+ rest := by
      rw [hw]; exact List.suffix_append u (r' :: w)
    have hsuf : (r' :: w) <:+ (r :: rest) :=
      hsufrest.trans (List.suffix_cons r rest)
    have h0 : VisitRel db (some id) (r :: rest) := VisitRel.step id r rest hfind htail
    have hD : VisitRel db (some r'.id) (r' :: w) := visit_suffix h0 r' w hsuf
    have hr : r.id = id := get_response_id_eq hfind
    rw [hr'id, hr] at hD
    have heq : r :: rest = r' :: w := visit_det h0 hD
    have hlen : (r' :: w).length ≤ rest.length := hsufrest.length_le
    rw [← heq] at hlen
    simp at hlen

/-- Every row visited by a walk is a member of the store. -/
theorem visit_mem {db : DatabaseState} {o : Option String}
    {l : List ResponseSession} (h : VisitRel db o l) :
    ∀ r ∈ l, r ∈ db.responses := by
  induction h with
  | terminated => intro r hr; cases hr
  | missing id hmiss => intro r hr; cases hr
  | step id r0 rest hfind htail ih =>
    intro r hr
    rcases List.mem_cons.mp hr with rfl | hr'
    · exact get_response_mem hfind
    · exact ih r hr'

/-- A terminating walk visits at most as many rows as the store holds. -/
theorem visit_length_le {db : DatabaseState} {o : Option String}
    {l : List ResponseSession} (h : VisitRel db o l) :
    l.length ≤ db.responses.length := by
  have hnd := visit_ids_nodup h
  have hsub : (l.map (fun r => r.id)) ⊆ (db.responses.map (fun r => r.id)) := by
    intro a ha
    obtain ⟨r, hrm, hrid⟩ := List.mem_map.mp ha
    exact List.mem_map.mpr ⟨r, visit_mem h r hrm, hrid⟩
  have := (List.subperm_of_subset hnd hsub).length_le
  simpa using this

/-- With enough fuel (one more than the trace length) the executable loop
computes exactly the walk trace, and issues one lookup per visited row plus
at most one more for a terminating miss. -/
theorem historyLoop_of_visit {db : DatabaseState} {o : Option String}
    {l : List ResponseSession} (h : VisitRel db o l) :
    ∀ fuel, l.length + 1 ≤ fuel →
      (historyLoop db fuel o).1 = l ∧
      ((historyLoop db fuel o).2 = l.length ∨ (historyLoop db fuel o).2 = l.length + 1) := by
  induction h with
  | terminated =>
    intro fuel _
    cases fuel <;> simp [historyLoop]
  | missing id hmiss =>
    intro fuel hf
    match fuel, hf with
    | fuel + 1, _ => simp [historyLoop, hmiss]
  | step id r rest hfind htail ih =>
    intro fuel hf
    match fuel, hf with
    | fuel + 1, hf =>
      have hrest : rest.length + 1 ≤ fuel := by
        simp at hf; omega
      obtain ⟨ih1, ih2⟩ := ih fuel hrest
      simp only [historyLoop, hfind]
      constructor
      · simp [ih1]
      · simp only [List.length_cons]
        omega

/-- Under duplicate-free ids, the point lookup of any row's id returns that
very row (the `find?` scan cannot stop at an earlier row). -/
theorem find_id_at (rs : List ResponseSession)
    (hnd : (rs.map (fun r => r.id)).Nodup) (j : Fin rs.length) :
    rs.find? (fun r => r.id = (rs.get j).id) = some (rs.get j) := by
  induction rs with
  | nil => exact absurd j.isLt (by simp)
  | cons a t ih =>
    rcases j with ⟨jv, hj⟩
    cases jv with
    | zero => simp [List.find?]
    | succ k =>
      have hk : k < t.length := by simpa using hj
      have hnd2 : a.id ∉ t.map (fun r => r.id) ∧ (t.map (fun r => r.id)).Nodup := by
        rw [List.map_cons, List.nodup_cons] at hnd
        exact hnd
      have hmem : (t.get ⟨k, hk⟩).id ∈ t.map (fun r => r.id) :=
        List.mem_map.mpr ⟨t.get ⟨k, hk⟩, List.get_mem t k hk, rfl⟩
      have hne : ¬ (a.id = (t.get ⟨k, hk⟩).id) := by
        intro hcontra
        exact hnd2.1 (by rw [hcontra]; exact hmem)
      have hstep : (a :: t).find? (fun r => r.id = (t.get ⟨k, hk⟩).id)
          = t.find? (fun r => r.id = (t.get ⟨k, hk⟩).id) :=
        List.find?_cons_of_neg _ (by simpa using hne)
      have hih := ih hnd2.2 ⟨k, hk⟩
      show (a :: t).find? (fun r => r.id = (t.get ⟨k, hk⟩).id) = some (t.get ⟨k, hk⟩)
      rw [hstep]
      exact hih

/-- In a well-formed store the walk from any row terminates: strong
induction on the row's position, which strictly decreases along
`previous_response_id`. -/
theorem exists_visit_aux (db : DatabaseState)
    (hwf : StoreWellFormed db.responses) :
    ∀ n : Nat, ∀ id : String, ∀ i : Fin db.responses.length,
      i.val < n → (db.responses.get i).id = id →
      ∃ l, VisitRel db (some id) l := by
  intro n
  induction n with
  | zero => intro id i hi _; exact absurd hi (Nat.not_lt_zero _)
  | succ n ih =>
    intro id i hi hid
    have hfind : get_response db id = some (db.responses.get i) := by
      unfold get_response
      rw [← hid]
      exact find_id_at db.responses hwf.1 i
    cases hprev : (db.responses.get i).previous_response_id with
    | none =>
      refine ⟨[db.responses.get i], ?_⟩
      refine VisitRel.step id _ [] hfind ?_
      rw [hprev]
      exact VisitRel.terminated
    | some p =>
      obtain ⟨j, hj_lt, hj_id⟩ := hwf.2 i p hprev
      have hjn : j.val < n := by omega
      obtain ⟨l', hl'⟩ := ih p j hjn hj_id
      refine ⟨db.responses.get i :: l', ?_⟩
      refine VisitRel.step id _ l' hfind ?_
      rw [hprev]
      exact hl'

/-- In a well-formed store the walk from any starting id terminates. -/
theorem exists_visit (db : DatabaseState)
    (hwf : StoreWellFormed db.responses) (id : String) :
    ∃ l, VisitRel db (some id) l := by
  cases hget : get_response db id with
  | none => exact ⟨[], VisitRel.missing id hget⟩
  | some r =>
    have hmem : r ∈ db.responses := get_response_mem hget
    obtain ⟨i, hi⟩ := List.mem_iff_get.mp hmem
    exact exists_visit_aux db hwf (i.val + 1) id i (Nat.lt_succ_self _)
      (by rw [hi]; exact get_response_id_eq hget)

/-! ### Concrete store used by the chain and frame witnesses -/

/-- Root response of the example chain (no parent). -/
def respA : ResponseSession :=
  { id := "a", object := "response", created_at := 1, status := "completed",
    model := "m", previous_response_id := none, instructions := none,
    max_output_tokens := none, temperature := none, top_p := none,
    store := true, metadata := none, user_id := none, safety_identifier := none,
    prompt_cache_key := none, usage_input_tokens := none,
    usage_output_tokens := none, usage_total_tokens := none,
    error := none, incomplete_details := none }

/-- Middle response of the example chain, pointing at `respA`. -/
def respB : ResponseSession :=
  { respA with id := "b", created_at := 2, previous_response_id := some "a" }

/-- Newest response of the example chain, pointing at `respB`. -/
def respC : ResponseSession :=
  { respA with id := "c", created_at := 3, previous_response_id := some "b" }

/-- Example store holding the chain `respA ← respB ← respC`. -/
def chainDb : DatabaseState :=
  { responses := [respA, respB, respC], input_items := [], output_items := [] }

/-- C1: for every store state and id, whenever the walk described by the
spec terminates with visitation trace `l` (newest-first), the reconstructor
returns exactly `l` reversed into oldest-first order.  An id with no stored
record yields the trace `[]` (constructor `VisitRel.missing`), hence the
empty result rather than an error; the `A ← B ← C` instance is the witness
below. -/
theorem reconstructChain_eq_reverse_visit (db : DatabaseState) (id : String)
    (l : List ResponseSession) (h : VisitRel db (some id) l) :
    get_conversation_history db id = l.reverse := by
  have hlen := visit_length_le h
  have hrun := historyLoop_of_visit h (db.responses.length + 1) (by omega)
  unfold get_conversation_history
  rw [hrun.1]

/-- Witness for C1 at the stored chain `A (root) ← B ← C`: reconstructing
from `"c"` yields `[A, B, C]`, via the explicit walk derivation. -/
theorem reconstructChain_eq_reverse_visit_witness :
    get_conversation_history chainDb "c" = [respA, respB, respC] :=
  (reconstructChain_eq_reverse_visit chainDb "c" [respC, respB, respA]
    (VisitRel.step "c" respC [respB, respA] rfl
      (VisitRel.step "b" respB [respA] rfl
        (VisitRel.step "a" respA [] rfl VisitRel.terminated)))).trans rfl

/-- C8: in a store whose parent links are acyclic because every row
references a strictly earlier, pre-existing row (the write-time shape), the
reconstruction loop terminates — a big-step derivation exists and the
executable reconstructor computes it — and it issues one store lookup per
visited chain element, plus exactly one terminating miss when the walk ends
on a missing id. -/
theorem reconstructChain_terminates (db : DatabaseState)
    (hwf : StoreWellFormed db.responses) (id : String) :
    ∃ l, VisitRel db (some id) l ∧
      get_conversation_history db id = l.reverse ∧
      (historyLookups db id = l.length ∨ historyLookups db id = l.length + 1) := by
  obtain ⟨l, hl⟩ := exists_visit db hwf id
  have hlen := visit_length_le hl
  have hrun := historyLoop_of_visit hl (db.responses.length + 1) (by omega)
  refine ⟨l, hl, ?_, hrun.2⟩
  unfold get_conversation_history
  rw [hrun.1]

/-- Witness for C8 at the example chain store. -/
theorem reconstructChain_terminates_witness :
    StoreWellFormed chainDb.responses ∧
    ∃ l, VisitRel chainDb (some "c") l ∧
      get_conversation_history chainDb "c" = l.reverse ∧
      (historyLookups chainDb "c" = l.length ∨ historyLookups chainDb "c" = l.length + 1) := by
  have hwf : StoreWellFormed chainDb.responses := by
    constructor
    · decide
    · intro i p hp
      fin_cases i
      · simp [chainDb, respA] at hp
      · simp [chainDb, respA, respB] at hp
        subst hp
        decide
      · simp [chainDb, respA, respC] at hp
        subst hp
        decide
  exact ⟨hwf, reconstructChain_terminates chainDb hwf "c"⟩

/-- C9: `update_response_status` touches nothing but the `status` column of
the rows whose id matches — items are untouched, row presence and positions
are untouched, every other field of every row is untouched, matching rows
get the new status and non-matching rows keep theirs. -/
theorem update_response_status_frame (db : DatabaseState)
    (response_id status : String) :
    (update_response_status db response_id status).input_items = db.input_items ∧
    (update_response_status db response_id status).output_items = db.output_items ∧
    ∀ i : Nat,
      ((update_response_status db response_id status).responses[i]?.isSome
        = db.responses[i]?.isSome) ∧
      ∀ r r', db.responses[i]? = some r →
        (update_response_status db response_id status).responses[i]? = some r' →
        (r'.id = r.id ∧ r'.object = r.object ∧ r'.created_at = r.created_at ∧
         r'.model = r.model ∧ r'.previous_response_id = r.previous_response_id ∧
         r'.instructions = r.instructions ∧
         r'.max_output_tokens = r.max_output_tokens ∧
         r'.temperature = r.temperature ∧ r'.top_p = r.top_p ∧
         r'.store = r.store ∧ r'.metadata = r.metadata ∧
         r'.user_id = r.user_id ∧
         r'.safety_identifier = r.safety_identifier ∧
         r'.prompt_cache_key = r.prompt_cache_key ∧
         r'.usage_input_tokens = r.usage_input_tokens ∧
         r'.usage_output_tokens = r.usage_output_tokens ∧
         r'.usage_total_tokens = r.usage_total_tokens ∧
         r'.error = r.error ∧ r'.incomplete_details = r.incomplete_details) ∧
        (r.id = response_id → r'.status = status) ∧
        (r.id ≠ response_id → r'.status = r.status) := by
  refine ⟨rfl, rfl, ?_⟩
  intro i
  constructor
  · simp [update_response_status, List.getElem?_map]
  · intro r r' hr hr'
    unfold update_response_status at hr'
    simp only [List.getElem?_map, hr, Option.map_some'] at hr'
    by_cases h : r.id = response_id
    · rw [if_pos h] at hr'
      cases hr'
      exact ⟨⟨rfl, rfl, rfl, rfl, rfl, rfl, rfl, rfl, rfl, rfl, rfl, rfl, rfl,
        rfl, rfl, rfl, rfl, rfl, rfl⟩, fun _ => rfl, fun hne => absurd h hne⟩
    · rw [if_neg h] at hr'
      cases hr'
      exact ⟨⟨rfl, rfl, rfl, rfl, rfl, rfl, rfl, rfl, rfl, rfl, rfl, rfl, rfl,
        rfl, rfl, rfl, rfl, rfl, rfl⟩, fun heq => absurd heq h, fun _ => rfl⟩

/-- Witness for C9: updating `"b"` to `"failed"` in the example store
rewrites exactly that row's status. -/
theorem update_response_status_frame_witness :
    chainDb.responses[1]? = some respB ∧
    (update_response_status chainDb "b" "failed").responses[1]?
      = some { respB with status := "failed" } ∧
    ({ respB with status := "failed" } : ResponseSession).id = respB.id ∧
    ({ respB with status := "failed" } : ResponseSession).status = "failed" := by
  have h1 : chainDb.responses[1]? = some respB := rfl
  have h2 : (update_response_status chainDb "b" "failed").responses[1]?
      = some { respB with status := "failed" } := rfl
  obtain ⟨-, -, hall⟩ := update_response_status_frame chainDb "b" "failed"
  obtain ⟨-, hr⟩ := hall 1
  have hmain := hr respB { respB with status := "failed" } h1 h2
  exact ⟨h1, h2, hmain.1.1, hmain.2.1 rfl⟩

/-! ### Round-trip lemmas for the serde_json model -/

set_option maxHeartbeats 2000000 in
/-- The two hex digits emitted for a control character decode to its value. -/
theorem hexpair_decode : ∀ t : Nat, t < 32 →
    hexVal (hexDigitChar (t / 16)) = some (t / 16) ∧
    hexVal (hexDigitChar (t % 16)) = some (t % 16) := by decide

set_option maxRecDepth 4000 in
/-- A character that needs no escaping is consumed verbatim by the string
parser. -/
theorem parseStringBody_other {c : Char} (h1 : c ≠ '"') (h2 : c ≠ '\\')
    (h3 : ¬ c.toNat < 32) (cs : List Char) :
    parseStringBody (c :: cs) = (parseStringBody cs).map (fun p => (c :: p.1, p.2)) := by
  rw [parseStringBody.eq_def]
  dsimp only
  rw [if_neg h1, if_neg h2, if_neg h3]

set_option maxRecDepth 4000 in
/-- The string parser closes on an unescaped quote. -/
theorem psb_quote (rest : List Char) : parseStringBody ('"' :: rest) = some ([], rest) := by
  rw [parseStringBody.eq_def]
  dsimp only
  rw [if_pos rfl]

set_option maxRecDepth 4000 in
/-- Unfolding of the string parser after a backslash. -/
theorem psb_escape (e : Char) (rest2 : List Char) :
    parseStringBody ('\\' :: e :: rest2) =
      (if e = '"' then (parseStringBody rest2).map (fun p => ('"' :: p.1, p.2))
       else if e = '\\' then (parseStringBody rest2).map (fun p => ('\\' :: p.1, p.2))
       else if e = '/' then (parseStringBody rest2).map (fun p => ('/' :: p.1, p.2))
       else if e = 'b' then (parseStringBody rest2).map (fun p => (Char.ofNat 8 :: p.1, p.2))
       else if e = 't' then (parseStringBody rest2).map (fun p => (Char.ofNat 9 :: p.1, p.2))
       else if e = 'n' then (parseStringBody rest2).map (fun p => (Char.ofNat 10 :: p.1, p.2))
       else if e = 'f' then (parseStringBody rest2).map (fun p => (Char.ofNat 12 :: p.1, p.2))
       else if e = 'r' then (parseStringBody rest2).map (fun p => (Char.ofNat 13 :: p.1, p.2))
       else if e = 'u' then
         match rest2 with
         | a :: b :: c' :: d :: rest3 =>
           match hexVal a, hexVal b, hexVal c', hexVal d with
           | some ha, some hb, some hc, some hd =>
             let n := ((ha * 16 + hb) * 16 + hc) * 16 + hd
             if 55296 ≤ n ∧ n ≤ 57343 then none
             else (parseStringBody rest3).map (fun p => (Char.ofNat n :: p.1, p.2))
           | _, _, _, _ => none
         | _ => none
       else none) := by
  rw [parseStringBody.eq_def]
  dsimp only
  rw [if_neg (by decide : ¬ ('\\' : Char) = '"'), if_pos rfl]

set_option maxRecDepth 4000 in
/-- The `\u00XX` escape emitted for a control character parses back to that
character. -/
theorem psb_esc_u00 (t : Nat) (h : t < 32) (rest3 : List Char) :
    parseStringBody
        ('\\' :: 'u' :: '0' :: '0' :: hexDigitChar (t / 16) :: hexDigitChar (t % 16) :: rest3)
      = (parseStringBody rest3).map (fun p => (Char.ofNat t :: p.1, p.2)) := by
  have hhi := (hexpair_decode t h).1
  have hlo := (hexpair_decode t h).2
  rw [psb_escape]
  rw [if_neg (by decide), if_neg (by decide), if_neg (by decide), if_neg (by decide),
    if_neg (by decide), if_neg (by decide), if_neg (by decide), if_neg (by decide),
    if_pos rfl]
  dsimp only
  rw [(by decide : hexVal '0' = some 0), hhi, hlo]
  dsimp only
  have hn : ((0 * 16 + 0) * 16 + t / 16) * 16 + t % 16 = t := by omega
  rw [hn]
  rw [if_neg (by omega)]

set_option maxRecDepth 8000 in
/-- Round trip at the string level: the parser inverts the escaper, leaving
exactly the input after the closing quote. -/
theorem parseStringBody_encode : ∀ (s rest : List Char),
    parseStringBody (encodeStringChars s ++ '"' :: rest) = some (s, rest) := by
  intro s
  induction s with
  | nil =>
    intro rest
    show parseStringBody ('"' :: rest) = some ([], rest)
    exact psb_quote rest
  | cons c cs ih =>
    intro rest
    have hsplit : encodeStringChars (c :: cs) ++ '"' :: rest
        = escapeChar c ++ (encodeStringChars cs ++ '"' :: rest) := by
      show (escapeChar c ++ encodeStringChars cs) ++ '"' :: rest = _
      rw [List.append_assoc]
    rw [hsplit]
    by_cases h1 : c = '"'
    · simp only [escapeChar]
      rw [if_pos h1]
      simp only [List.cons_append, List.nil_append]
      rw [psb_escape, if_pos rfl, ih rest]
      rw [h1]
      rfl
    · by_cases h2 : c = '\\'
      · simp only [escapeChar]
        rw [if_neg h1, if_pos h2]
        simp only [List.cons_append, List.nil_append]
        rw [psb_escape, if_neg (by decide), if_pos rfl, ih rest]
        rw [h2]
        rfl
      · by_cases h3 : c = Char.ofNat 8
        · simp only [escapeChar]
          rw [if_neg h1, if_neg h2, if_pos h3]
          simp only [List.cons_append, List.nil_append]
          rw [psb_escape, if_neg (by decide), if_neg (by decide), if_neg (by decide),
            if_pos rfl, ih rest]
          rw [h3]
          rfl
        · by_cases h4 : c = Char.ofNat 9
          · simp only [escapeChar]
            rw [if_neg h1, if_neg h2, if_neg h3, if_pos h4]
            simp only [List.cons_append, List.nil_append]
            rw [psb_escape, if_neg (by decide), if_neg (by decide), if_neg (by decide),
              if_neg (by decide), if_pos rfl, ih rest]
            rw [h4]
            rfl
          · by_cases h5 : c = Char.ofNat 10
            · simp only [escapeChar]
              rw [if_neg h1, if_neg h2, if_neg h3, if_neg h4, if_pos h5]
              simp only [List.cons_append, List.nil_append]
              rw [psb_escape, if_neg (by decide), if_neg (by decide), if_neg (by decide),
                if_neg (by decide), if_neg (by decide), if_pos rfl, ih rest]
              rw [h5]
              rfl
            · by_cases h6 : c = Char.ofNat 12
              · simp only [escapeChar]
                rw [if_neg h1, if_neg h2, if_neg h3, if_neg h4, if_neg h5, if_pos h6]
                simp only [List.cons_append, List.nil_append]
                rw [psb_escape, if_neg (by decide), if_neg (by decide), if_neg (by decide),
                  if_neg (by decide), if_neg (by decide), if_neg (by decide), if_pos rfl,
                  ih rest]
                rw [h6]
                rfl
              · by_cases h7 : c = Char.ofNat 13
                · simp only [escapeChar]
                  rw [if_neg h1, if_neg h2, if_neg h3, if_neg h4, if_neg h5, if_neg h6,
                    if_pos h7]
                  simp only [List.cons_append, List.nil_append]
                  rw [psb_escape, if_neg (by decide), if_neg (by decide), if_neg (by decide),
                    if_neg (by decide), if_neg (by decide), if_neg (by decide),
                    if_neg (by decide), if_pos rfl, ih rest]
                  rw [h7]
                  rfl
                · by_cases h8 : c.toNat < 32
                  · simp only [escapeChar]
                    rw [if_neg h1, if_neg h2, if_neg h3, if_neg h4, if_neg h5, if_neg h6,
                      if_neg h7, if_pos h8]
                    simp only [List.cons_append, List.nil_append]
                    rw [psb_esc_u00 c.toNat h8, ih rest, Char.ofNat_toNat]
                    rfl
                  · simp only [escapeChar]
                    rw [if_neg h1, if_neg h2, if_neg h3, if_neg h4, if_neg h5, if_neg h6,
                      if_neg h7, if_neg h8]
                    simp only [List.cons_append, List.nil_append]
                    rw [parseStringBody_other h1 h2 h8, ih rest]
                    rfl

/-- The encoded entries are at least as many characters as entries. -/
theorem encodeEntries_length_ge : ∀ m : List (String × String),
    m.length ≤ (encodeEntries m).length := by
  intro m
  induction m with
  | nil => simp [encodeEntries]
  | cons kv m' ih =>
    cases m' with
    | nil => simp [encodeEntries, encodeString]
    | cons kv2 m'' =>
      simp only [encodeEntries, List.length_append, List.length_cons, encodeString] at ih ⊢
      omega

/-- Normal form of one encoded entry followed by arbitrary input. -/
theorem encodeEntry_shape (k v : String) (tail : List Char) :
    (encodeString k ++ ':' :: encodeString v) ++ tail
      = '"' :: (encodeStringChars k.data ++ '"' ::
          (':' :: ('"' :: (encodeStringChars v.data ++ '"' :: tail)))) := by
  simp [encodeString, List.append_assoc]

set_option maxRecDepth 8000 in
/-- Round trip at the object-body level: with fuel at least the number of
entries, the entry loop inverts the entry encoder. -/
theorem parseEntriesLoop_encode : ∀ (m : List (String × String)), m ≠ [] →
    ∀ fuel, m.length ≤ fuel → ∀ rest,
    parseEntriesLoop fuel (encodeEntries m ++ '}' :: rest) = some (m, rest) := by
  intro m
  induction m with
  | nil => intro h; exact absurd rfl h
  | cons kv m' ih =>
    intro _ fuel hf rest
    match fuel, hf with
    | fuel + 1, hf =>
      cases m' with
      | nil =>
        have hshape : encodeEntries [kv] ++ '}' :: rest
            = '"' :: (encodeStringChars kv.1.data ++ '"' ::
                (':' :: ('"' :: (encodeStringChars kv.2.data ++ '"' :: ('}' :: rest))))) := by
          show (encodeString kv.1 ++ ':' :: encodeString kv.2) ++ '}' :: rest = _
          exact encodeEntry_shape kv.1 kv.2 ('}' :: rest)
        rw [hshape]
        rw [parseEntriesLoop.eq_def]
        dsimp only
        rw [if_pos rfl]
        rw [parseStringBody_encode kv.1.data]
        dsimp only
        rw [if_pos rfl]
        rw [if_pos rfl]
        rw [parseStringBody_encode kv.2.data]
        dsimp only
        rw [if_neg (by decide), if_pos rfl]
      | cons kv2 m'' =>
        have hshape : encodeEntries (kv :: kv2 :: m'') ++ '}' :: rest
            = '"' :: (encodeStringChars kv.1.data ++ '"' ::
                (':' :: ('"' :: (encodeStringChars kv.2.data ++ '"' ::
                  (',' :: (encodeEntries (kv2 :: m'') ++ '}' :: rest)))))) := by
          show ((encodeString kv.1 ++ ':' :: encodeString kv.2) ++
              ',' :: encodeEntries (kv2 :: m'')) ++ '}' :: rest = _
          rw [List.append_assoc]
          exact encodeEntry_shape kv.1 kv.2 (',' :: (encodeEntries (kv2 :: m'') ++ '}' :: rest))
        rw [hshape]
        rw [parseEntriesLoop.eq_def]
        dsimp only
        rw [if_pos rfl]
        rw [parseStringBody_encode kv.1.data]
        dsimp only
        rw [if_pos rfl]
        rw [if_pos rfl]
        rw [parseStringBody_encode kv.2.data]
        dsimp only
        rw [if_pos rfl]
        have hlen : (kv2 :: m'').length ≤ fuel := by
          simp only [List.length_cons] at hf ⊢
          omega
        rw [ih (by simp) fuel hlen rest]
        rfl

/-- A nonempty entry encoding starts with a quote. -/
theorem encodeEntries_head (kv : String × String) (m' : List (String × String)) :
    ∃ t, encodeEntries (kv :: m') = '"' :: t := by
  cases m' <;> exact ⟨_, rfl⟩

/-- Round trip at the map level: parsing a serialized map returns exactly
its entry list and consumes the whole input. -/
theorem parseMap_encode (m : List (String × String)) :
    parseMap (encodeMap m) = some (m, []) := by
  cases m with
  | nil => rfl
  | cons kv m' =>
    show parseMap ('{' :: (encodeEntries (kv :: m') ++ ['}'])) = _
    rw [parseMap.eq_def]
    dsimp only
    rw [if_pos rfl]
    obtain ⟨t, ht⟩ := encodeEntries_head kv m'
    rw [ht]
    simp only [List.cons_append]
    rw [if_neg (by decide)]
    rw [← List.cons_append, ← ht]
    have hlen : (kv :: m').length ≤ (encodeEntries (kv :: m') ++ ['}']).length := by
      have hge := encodeEntries_length_ge (kv :: m')
      simp only [List.length_append, List.length_cons, List.length_nil] at hge ⊢
      omega
    exact parseEntriesLoop_encode (kv :: m') (by simp) _ hlen []

/-- Rebuilding a `HashMap` from entries with duplicate-free keys reproduces
exactly those entries. -/
theorem buildMap_aux_of_nodup : ∀ (l acc : List (String × String)),
    (((acc ++ l).map Prod.fst).Nodup) →
    l.foldl (fun a kv => hashInsert a kv.1 kv.2) acc = acc ++ l := by
  intro l
  induction l with
  | nil => intro acc _; simp
  | cons kv t ih =>
    intro acc hnd
    simp only [List.foldl_cons]
    have hnotin : ¬ (acc.any (fun p => p.1 = kv.1) = true) := by
      intro hany
      rw [List.any_eq_true] at hany
      obtain ⟨p, hp, hpe⟩ := hany
      have hpe' : p.1 = kv.1 := of_decide_eq_true hpe
      rw [List.map_append, List.nodup_append] at hnd
      exact hnd.2.2 (List.mem_map.mpr ⟨p, hp, hpe'⟩) (by simp)
    rw [hashInsert, if_neg hnotin]
    have hnd' : (((acc ++ [kv]) ++ t).map Prod.fst).Nodup := by
      rw [List.append_assoc]
      simpa using hnd
    rw [ih (acc ++ [kv]) hnd']
    simp

/-- `buildMap` is the identity on duplicate-free entry lists. -/
theorem buildMap_of_nodup (m : List (String × String))
    (hnd : (m.map Prod.fst).Nodup) : buildMap m = m := by
  have := buildMap_aux_of_nodup m [] (by simpa using hnd)
  simpa [buildMap] using this

/-- `from_json ∘ to_json` is the identity on Metadata with duplicate-free
keys — and performs no validation whatsoever. -/
theorem from_json_to_json (m : List (String × String))
    (hnd : (m.map Prod.fst).Nodup) :
    Metadata.from_json ((Metadata.mk m).to_json) = some (Metadata.mk m) := by
  simp only [Metadata.to_json, Metadata.from_json]
  rw [parseMap_encode m]
  dsimp only
  rw [buildMap_of_nodup m hnd]

/-- Entry validation succeeds when every key is within 64 bytes and every
value within 512 bytes. -/
theorem validateEntries_ok : ∀ l : List (String × String),
    (∀ kv ∈ l, kv.1.utf8ByteSize ≤ 64 ∧ kv.2.utf8ByteSize ≤ 512) →
    validateEntries l = Except.ok () := by
  intro l
  induction l with
  | nil => intro _; rfl
  | cons kv t ih =>
    intro h
    obtain ⟨hk, hv⟩ := h kv (by simp)
    show validateEntries ((kv.1, kv.2) :: t) = Except.ok ()
    rw [validateEntries, if_neg (by omega), if_neg (by omega)]
    exact ih (fun p hp => h p (List.mem_cons_of_mem kv hp))

/-- Entry validation fails when some key exceeds 64 bytes or some value
exceeds 512 bytes. -/
theorem validateEntries_err : ∀ l : List (String × String),
    (∃ kv ∈ l, 64 < kv.1.utf8ByteSize ∨ 512 < kv.2.utf8ByteSize) →
    ∃ e, validateEntries l = Except.error e := by
  intro l
  induction l with
  | nil => intro h; obtain ⟨kv, hm, _⟩ := h; cases hm
  | cons kv t ih =>
    intro h
    by_cases hk : kv.1.utf8ByteSize > 64
    · refine ⟨MetadataError.KeyTooLong kv.1.utf8ByteSize, ?_⟩
      show validateEntries ((kv.1, kv.2) :: t) = _
      rw [validateEntries, if_pos hk]
    · by_cases hv : kv.2.utf8ByteSize > 512
      · refine ⟨MetadataError.ValueTooLong kv.2.utf8ByteSize, ?_⟩
        show validateEntries ((kv.1, kv.2) :: t) = _
        rw [validateEntries, if_neg hk, if_pos hv]
      · obtain ⟨p, hp, hviol⟩ := h
        rcases List.mem_cons.mp hp with rfl | hpt
        · exact absurd hviol (by omega)
        · obtain ⟨e, he⟩ := ih ⟨p, hpt, hviol⟩
          refine ⟨e, ?_⟩
          show validateEntries ((kv.1, kv.2) :: t) = _
          rw [validateEntries, if_neg hk, if_neg hv]
          exact he

/-- A key of 33 two-byte characters: 33 characters, 66 UTF-8 bytes. -/
def longKeyEx : String := String.mk (List.replicate 33 'é')

/-- One-entry map whose key is within the 64-character bound but beyond the
64-byte bound the code actually enforces. -/
def mapEx : List (String × String) := [(longKeyEx, "v")]

set_option maxRecDepth 16000 in
/-- Counterexample to C3 as stated: `mapEx` has one entry, its key is 33
characters (≤ 64) and its value 1 character (≤ 512), yet `from_map` fails —
`Metadata::from_map` bounds `str::len()`, which counts UTF-8 bytes (66
here), not characters. -/
theorem metadata_roundtrip_cex :
    (mapEx.map Prod.fst).Nodup ∧ mapEx.length ≤ 16 ∧
    (∀ kv ∈ mapEx, kv.1.length ≤ 64 ∧ kv.2.length ≤ 512) ∧
    Metadata.from_map mapEx = Except.error (MetadataError.KeyTooLong 66) := by
  refine ⟨by decide, by decide, by decide, by rfl⟩

/-- C3 (amended: bounds in UTF-8 bytes, as `str::len()` counts): for every
map of at most 16 entries with every key at most 64 bytes and every value at
most 512 bytes, `from_map` succeeds, and the result round-trips through the
storage serialization (`to_json` then `from_json`) to a `Metadata` equal to
the original map. -/
theorem metadata_roundtrip (m : List (String × String))
    (hnd : (m.map Prod.fst).Nodup) (hlen : m.length ≤ 16)
    (hbounds : ∀ kv ∈ m, kv.1.utf8ByteSize ≤ 64 ∧ kv.2.utf8ByteSize ≤ 512) :
    Metadata.from_map m = Except.ok (Metadata.mk m) ∧
    Metadata.from_json ((Metadata.mk m).to_json) = some (Metadata.mk m) := by
  have hv : validateEntries m = Except.ok () := validateEntries_ok m hbounds
  constructor
  · simp only [Metadata.from_map, Metadata.validate]
    rw [if_neg (by omega), hv]
  · exact from_json_to_json m hnd

/-- Witness for C3 (amended) at the one-entry ASCII map. -/
theorem metadata_roundtrip_witness :
    Metadata.from_map [("k", "v")] = Except.ok (Metadata.mk [("k", "v")]) ∧
    Metadata.from_json ((Metadata.mk [("k", "v")]).to_json)
      = some (Metadata.mk [("k", "v")]) :=
  metadata_roundtrip [("k", "v")] (by decide) (by decide) (by decide)

/-- Sixteen validated ASCII entries. -/
def meta16 : Metadata := Metadata.mk
  [("k0", "x"), ("k1", "x"), ("k2", "x"), ("k3", "x"),
   ("k4", "x"), ("k5", "x"), ("k6", "x"), ("k7", "x"),
   ("k8", "x"), ("k9", "x"), ("k10", "x"), ("k11", "x"),
   ("k12", "x"), ("k13", "x"), ("k14", "x"), ("k15", "x")]

/-- A value of 300 two-byte characters: 300 characters, 600 UTF-8 bytes. -/
def longValEx : String := String.mk (List.replicate 300 'é')

set_option maxRecDepth 16000 in
/-- Counterexample to C4 as stated: overwriting the existing key `"k0"` of a
16-entry map with a value of 300 characters (within the 512-character
bound) fails — `Metadata::insert` bounds `str::len()`, i.e. UTF-8 bytes
(600 here), not characters. -/
theorem insert_at_capacity_cex :
    meta16.entries.length = 16 ∧
    meta16.containsKey "k0" = true ∧
    longValEx.length ≤ 512 ∧
    meta16.insert "k0" longValEx = (meta16, some (MetadataError.ValueTooLong 600)) := by
  refine ⟨rfl, rfl, by decide, by rfl⟩

/-- After replacing an existing key's value, lookup finds the new value. -/
theorem find_replace (l : List (String × String)) (k v : String)
    (h : l.any (fun kv => kv.1 = k) = true) :
    (l.map (fun kv => if kv.1 = k then (k, v) else kv)).find? (fun kv => kv.1 = k)
      = some (k, v) := by
  induction l with
  | nil => cases h
  | cons p t ih =>
    by_cases hp : p.1 = k
    · simp only [List.map_cons, if_pos hp]
      exact List.find?_cons_of_pos _ (by simp)
    · simp only [List.map_cons, if_neg hp]
      rw [List.find?_cons_of_neg _ (by simpa using hp)]
      apply ih
      simpa [hp] using h

/-- C4 (amended: the overwrite case additionally requires the key within 64
UTF-8 bytes and the value within 512 UTF-8 bytes, the bounds `insert`
enforces on its arguments): on a `Metadata` holding exactly 16 entries,
inserting a fresh key fails with `TooManyKeys` and returns the map
unchanged, while overwriting an existing (in-bounds) key succeeds, replaces
exactly that entry, and keeps the entry count at 16. -/
theorem insert_at_capacity (M : Metadata) (k v : String)
    (h16 : M.entries.length = 16) :
    (M.containsKey k = false → M.insert k v = (M, some MetadataError.TooManyKeys)) ∧
    (M.containsKey k = true → k.utf8ByteSize ≤ 64 → v.utf8ByteSize ≤ 512 →
      (M.insert k v).2 = none ∧
      (M.insert k v).1.entries
        = M.entries.map (fun kv => if kv.1 = k then (k, v) else kv) ∧
      (M.insert k v).1.entries.length = 16 ∧
      (M.insert k v).1.get k = some v) := by
  constructor
  · intro hc
    rw [Metadata.insert, if_pos ⟨by omega, by simp [hc]⟩]
  · intro hc hk hv
    have hcond : ¬ (16 ≤ M.entries.length ∧ ¬ (M.containsKey k = true)) := by
      simp [hc]
    rw [Metadata.insert, if_neg hcond, if_neg (by omega), if_neg (by omega)]
    have hc' : (M.entries.any fun kv => kv.1 = k) = true := hc
    refine ⟨rfl, ?_, ?_, ?_⟩
    · show hashInsert M.entries k v = _
      rw [hashInsert, if_pos hc']
    · show (hashInsert M.entries k v).length = 16
      rw [hashInsert, if_pos hc']
      simp [h16]
    · show (Metadata.mk (hashInsert M.entries k v)).get k = some v
      simp only [Metadata.get]
      rw [hashInsert, if_pos hc']
      rw [find_replace M.entries k v hc']
      rfl

/-- Witness for C4 (amended) on the concrete 16-entry map: a fresh key is
rejected with `TooManyKeys`, overwriting `"k0"` succeeds and keeps 16
entries. -/
theorem insert_at_capacity_witness :
    meta16.entries.length = 16 ∧
    meta16.containsKey "zz" = false ∧
    meta16.insert "zz" "y" = (meta16, some MetadataError.TooManyKeys) ∧
    meta16.containsKey "k0" = true ∧
    (meta16.insert "k0" "y").2 = none ∧
    (meta16.insert "k0" "y").1.entries.length = 16 ∧
    (meta16.insert "k0" "y").1.get "k0" = some "y" := by
  have hfresh := (insert_at_capacity meta16 "zz" "y" rfl).1 rfl
  have hov := (insert_at_capacity meta16 "k0" "y" rfl).2 rfl (by decide) (by decide)
  exact ⟨rfl, rfl, hfresh, rfl, hov.1, hov.2.2.1, hov.2.2.2⟩

/-- C10: loading a persisted metadata column through the validating serde
`Deserialize` impl — the path `get_response` takes — fails on any
bound-violating map (oversized map, key over 64 bytes, or value over 512
bytes), while the separate `Metadata::from_json` constructor accepts the
same payload without re-validation. -/
theorem metadata_deserialize_validates (m : List (String × String))
    (hnd : (m.map Prod.fst).Nodup)
    (hbad : 16 < m.length ∨ ∃ kv ∈ m, 64 < kv.1.utf8ByteSize ∨ 512 < kv.2.utf8ByteSize) :
    get_response_metadata (some ((Metadata.mk m).to_json)) = none ∧
    Metadata.from_json ((Metadata.mk m).to_json) = some (Metadata.mk m) := by
  have herr : ∃ e, Metadata.from_map m = Except.error e := by
    rcases hbad with hlen | hex
    · refine ⟨MetadataError.TooManyKeys, ?_⟩
      simp only [Metadata.from_map, Metadata.validate]
      rw [if_pos (by omega)]
    · by_cases hlen : m.length > 16
      · refine ⟨MetadataError.TooManyKeys, ?_⟩
        simp only [Metadata.from_map, Metadata.validate]
        rw [if_pos hlen]
      · obtain ⟨e, he⟩ := validateEntries_err m hex
        refine ⟨e, ?_⟩
        simp only [Metadata.from_map, Metadata.validate]
        rw [if_neg hlen, he]
  obtain ⟨e, he⟩ := herr
  constructor
  · simp only [get_response_metadata, Metadata.deserialize, Metadata.to_json]
    rw [parseMap_encode m]
    dsimp only
    rw [buildMap_of_nodup m hnd, he]
    rfl
  · exact from_json_to_json m hnd

/-- Seventeen distinct ASCII entries: one over the 16-entry cap. -/
def mapEx17 : List (String × String) :=
  [("k00", "v"), ("k01", "v"), ("k02", "v"), ("k03", "v"), ("k04", "v"),
   ("k05", "v"), ("k06", "v"), ("k07", "v"), ("k08", "v"), ("k09", "v"),
   ("k10", "v"), ("k11", "v"), ("k12", "v"), ("k13", "v"), ("k14", "v"),
   ("k15", "v"), ("k16", "v")]

/-- Witness for C10 at a 17-entry map: the `get_response` load path rejects
it, `from_json` accepts it verbatim. -/
theorem metadata_deserialize_validates_witness :
    (mapEx17.map Prod.fst).Nodup ∧ 16 < mapEx17.length ∧
    get_response_metadata (some ((Metadata.mk mapEx17).to_json)) = none ∧
    Metadata.from_json ((Metadata.mk mapEx17).to_json) = some (Metadata.mk mapEx17) := by
  have h := metadata_deserialize_validates mapEx17 (by decide) (Or.inl (by decide))
  exact ⟨by decide, by decide, h.1, h.2⟩

/-! ### Lemmas for the schema translator -/

/-- The `u64 as i64` cast is the identity below `2 ^ 63`. -/
theorem u64_as_i64_of_lt (n : Nat) (h : n < 2 ^ 63) :
    Int.bmod (n : Int) (2 ^ 64) = n := by
  have h0 : (0 : Int) ≤ (n : Int) := Int.ofNat_nonneg n
  have hlt : (n : Int) < ((2 ^ 64 : Nat) : Int) := by
    have hn : (n : Int) < ((2 : Int) ^ 63) := by exact_mod_cast h
    have : ((2 : Int) ^ 63) < ((2 ^ 64 : Nat) : Int) := by norm_num
    omega
  unfold Int.bmod
  rw [Int.emod_eq_of_lt h0 hlt]
  rw [if_pos]
  have hn : (n : Int) < ((2 : Int) ^ 63) := by exact_mod_cast h
  have : (((2 ^ 64 : Nat) : Int) + 1) / 2 = (2 : Int) ^ 63 := by norm_num
  omega

/-- Indexing an enumerated-and-mapped list. -/
theorem enum_map_getElem? {α β : Type} (f : Nat × α → β) (l : List α) (i : Nat) :
    (l.enum.map f)[i]? = (l[i]?).map (fun a => f (i, a)) := by
  rw [List.getElem?_map, List.getElem?_enum]
  cases l[i]? <;> rfl

/-- Chat-completion result with a `u64` usage counter at `2 ^ 63`. -/
def cexCompletion : ChatCompletionObject :=
  { id := "chatcmpl-1", created := 0, model := "m", choices := [],
    usage := { prompt_tokens := 2 ^ 63, completion_tokens := 0, total_tokens := 0 } }

/-- Counterexample to C2 as stated: for a result whose `u64` prompt-token
count is `2 ^ 63`, the translated `input_tokens` is `-(2 ^ 63)` — the
`as i64` cast wraps, so the output does not equal the source count. -/
theorem from_chat_completion_shape_cex :
    cexCompletion.usage.prompt_tokens = 2 ^ 63 ∧
    (ResponseObject.from_chat_completion (fun _ => "msg") cexCompletion).usage
      = some (Usage.mk (-(2 ^ 63)) 0 0 none none) ∧
    (-(2 ^ 63) : Int) ≠ ((2 ^ 63 : Nat) : Int) := by
  refine ⟨rfl, by rfl, by decide⟩

/-- C2 (amended: for results whose token counters are below `2 ^ 63`, so the
`u64 as i64` casts do not wrap): the result-direction translation produces
one output item per completion choice — each with the generated id, item
type "message", status "completed", role Assistant, and exactly one
"output_text" content block holding that choice's message text (empty
string when the source message has no content) — usage counters pass
through exactly, `store` is `some true`, and error, incomplete-details,
reasoning and truncation are all absent. -/
theorem from_chat_completion_shape (genId : Nat → String)
    (completion : ChatCompletionObject)
    (h1 : completion.usage.prompt_tokens < 2 ^ 63)
    (h2 : completion.usage.completion_tokens < 2 ^ 63)
    (h3 : completion.usage.total_tokens < 2 ^ 63) :
    (ResponseObject.from_chat_completion genId completion).output.length
        = completion.choices.length ∧
    (∀ i : Nat, ∀ choice, completion.choices[i]? = some choice →
      (ResponseObject.from_chat_completion genId completion).output[i]?
        = some (OutputItem.mk (genId i) "message" "completed" (some Role.Assistant)
            (some [OutputContent.mk "output_text"
              (OutputContentData.Text ((choice.message.content).getD "") none)]))) ∧
    (ResponseObject.from_chat_completion genId completion).usage
      = some (Usage.mk (completion.usage.prompt_tokens : Int)
          (completion.usage.completion_tokens : Int)
          (completion.usage.total_tokens : Int) none none) ∧
    (ResponseObject.from_chat_completion genId completion).store = some true ∧
    (ResponseObject.from_chat_completion genId completion).error = none ∧
    (ResponseObject.from_chat_completion genId completion).incomplete_details = none ∧
    (ResponseObject.from_chat_completion genId completion).reasoning = none ∧
    (ResponseObject.from_chat_completion genId completion).truncation = none := by
  refine ⟨?_, ?_, ?_, rfl, rfl, rfl, rfl, rfl⟩
  · simp [ResponseObject.from_chat_completion]
  · intro i choice hchoice
    simp only [ResponseObject.from_chat_completion]
    rw [enum_map_getElem?]
    rw [hchoice]
    rfl
  · simp only [ResponseObject.from_chat_completion]
    rw [u64_as_i64_of_lt _ h1, u64_as_i64_of_lt _ h2, u64_as_i64_of_lt _ h3]

/-- Two-choice chat-completion result for the C2 witness. -/
def complEx : ChatCompletionObject :=
  { id := "c1", created := 5, model := "m",
    choices := [ChatCompletionObjectChoice.mk (ChatCompletionObjectMessage.mk (some "hello")),
      ChatCompletionObjectChoice.mk (ChatCompletionObjectMessage.mk (some "world"))],
    usage := ChatUsage.mk 3 4 7 }

/-- Witness for C2 (amended) at a two-choice result. -/
theorem from_chat_completion_shape_witness :
    (ResponseObject.from_chat_completion (fun _ => "m1") complEx).output.length = 2 ∧
    (ResponseObject.from_chat_completion (fun _ => "m1") complEx).output[0]?
      = some (OutputItem.mk "m1" "message" "completed" (some Role.Assistant)
          (some [OutputContent.mk "output_text" (OutputContentData.Text "hello" none)])) ∧
    (ResponseObject.from_chat_completion (fun _ => "m1") complEx).output[1]?
      = some (OutputItem.mk "m1" "message" "completed" (some Role.Assistant)
          (some [OutputContent.mk "output_text" (OutputContentData.Text "world" none)])) ∧
    (ResponseObject.from_chat_completion (fun _ => "m1") complEx).usage
      = some (Usage.mk 3 4 7 none none) ∧
    (ResponseObject.from_chat_completion (fun _ => "m1") complEx).store = some true ∧
    (ResponseObject.from_chat_completion (fun _ => "m1") complEx).error = none := by
  have h := from_chat_completion_shape (fun _ => "m1") complEx
    (by decide) (by decide) (by decide)
  exact ⟨h.1, h.2.1 0 _ rfl, h.2.1 1 _ rfl, h.2.2.1, h.2.2.2.1, h.2.2.2.2.1⟩

/-- The translator's input-item fold appends, per item, exactly the messages
`specItemMessages` prescribes: one role-chosen message per text item,
nothing for image or file items. -/
theorem foldl_filter_messages (items : List InputItem) :
    ∀ acc : List ChatCompletionRequestMessage,
      items.foldl (fun acc item =>
        match item.content with
        | InputContent.Text text =>
          match (item.role).getD Role.User with
          | Role.User =>
            acc ++ [ChatCompletionRequestMessage.User
              ⟨ChatCompletionUserMessageContent.Text text, none⟩]
          | Role.System =>
            acc ++ [ChatCompletionRequestMessage.System ⟨text, none⟩]
          | _ =>
            acc ++ [ChatCompletionRequestMessage.User
              ⟨ChatCompletionUserMessageContent.Text text, none⟩]
        | _ => acc) acc
      = acc ++ (items.map specItemMessages).flatten := by
  induction items with
  | nil => intro acc; simp
  | cons item t ih =>
    intro acc
    simp only [List.foldl_cons, List.map_cons, List.flatten]
    cases hc : item.content with
    | Text text =>
      cases hr : (item.role).getD Role.User with
      | User =>
        simp only [hc, hr]
        rw [ih]
        simp [specItemMessages, hc, hr, List.append_assoc]
      | System =>
        simp only [hc, hr]
        rw [ih]
        simp [specItemMessages, hc, hr, List.append_assoc]
      | Assistant =>
        simp only [hc, hr]
        rw [ih]
        simp [specItemMessages, hc, hr, List.append_assoc]
    | Image iu det =>
      simp only [hc]
      rw [ih]
      simp [specItemMessages, hc]
    | File fid p =>
      simp only [hc]
      rw [ih]
      simp [specItemMessages, hc]

/-- C5: when the input is a structured item array, the translated message
list is the history, then the optional instructions system message, then —
in order — exactly the messages of the text items; every non-text (image or
file) item contributes no message; every text item contributes one.  The
translation is total, so no input array can make it error. -/
theorem array_input_translation (req : ResponseRequest)
    (hist : List ChatCompletionRequestMessage) (items : List InputItem)
    (hin : req.input = some (InputTypes.Array items)) :
    (req.to_chat_completion_request hist).messages
      = (hist ++ (match req.instructions with
          | some instructions => [ChatCompletionRequestMessage.System ⟨instructions, none⟩]
          | none => [])) ++ (items.map specItemMessages).flatten ∧
    (∀ item ∈ items, (∀ t, item.content ≠ InputContent.Text t) →
      specItemMessages item = []) ∧
    (∀ item ∈ items, ∀ t, item.content = InputContent.Text t →
      specItemMessages item ≠ []) := by
  refine ⟨?_, ?_, ?_⟩
  · simp only [ResponseRequest.to_chat_completion_request, hin]
    rw [foldl_filter_messages items]
  · intro item _ hnt
    cases hitem : item.content with
    | Text t => exact absurd hitem (hnt t)
    | Image iu det => simp [specItemMessages, hitem]
    | File fid p => simp [specItemMessages, hitem]
  · intro item _ t hitem
    simp only [specItemMessages, hitem]
    cases hr : (item.role).getD Role.User <;> simp

/-- A minimal Responses request (all optional fields absent). -/
def baseReq : ResponseRequest :=
  { model := "m", input := none, instructions := none,
    previous_response_id := none, max_output_tokens := none, temperature := none,
    top_p := none, stream := none, store := none, metadata := none, user := none,
    safety_identifier := none, prompt_cache_key := none, tools := none,
    tool_choice := none, parallel_tool_calls := none, include_ := none,
    background := none, verbosity := none, truncation := none }

/-- An image input item (unsupported kind). -/
def imageItemEx : InputItem :=
  { item_type := "input_image", role := some Role.User,
    content := InputContent.Image (ImageUrl.mk "u1") none }

/-- A text input item sitting next to the image item. -/
def textItemEx : InputItem :=
  { item_type := "input_text", role := some Role.User,
    content := InputContent.Text "hi" }

/-- Request whose structured input holds the image item and the text item. -/
def reqArrayEx : ResponseRequest :=
  { baseReq with input := some (InputTypes.Array [imageItemEx, textItemEx]) }

/-- Witness for C5: the image item contributes no message while its text
sibling still becomes the single user message. -/
theorem array_input_translation_witness :
    (reqArrayEx.to_chat_completion_request []).messages
      = [ChatCompletionRequestMessage.User
          ⟨ChatCompletionUserMessageContent.Text "hi", none⟩] ∧
    specItemMessages imageItemEx = [] := by
  have h := array_input_translation reqArrayEx [] [imageItemEx, textItemEx] rfl
  refine ⟨h.1.trans (by rfl), ?_⟩
  exact h.2.1 imageItemEx (by simp) (fun t ht => nomatch ht)

/-- C6: the tool-choice translation maps `Auto`, `None` and `Required` to
the corresponding chat-completion values, downgrades an explicit
named-function choice to `Auto`, and keeps an absent choice absent. -/
theorem tool_choice_translation (req : ResponseRequest)
    (hist : List ChatCompletionRequestMessage) :
    (req.tool_choice = none →
      (req.to_chat_completion_request hist).tool_choice = none) ∧
    (req.tool_choice = some ToolChoice.Auto →
      (req.to_chat_completion_request hist).tool_choice = some ChatToolChoice.Auto) ∧
    (req.tool_choice = some ToolChoice.None →
      (req.to_chat_completion_request hist).tool_choice = some ChatToolChoice.None) ∧
    (req.tool_choice = some ToolChoice.Required →
      (req.to_chat_completion_request hist).tool_choice = some ChatToolChoice.Required) ∧
    (∀ f, req.tool_choice = some (ToolChoice.Function f) →
      (req.to_chat_completion_request hist).tool_choice = some ChatToolChoice.Auto) := by
  refine ⟨?_, ?_, ?_, ?_, ?_⟩
  · intro h; simp [ResponseRequest.to_chat_completion_request, h]
  · intro h; simp [ResponseRequest.to_chat_completion_request, h]
  · intro h; simp [ResponseRequest.to_chat_completion_request, h]
  · intro h; simp [ResponseRequest.to_chat_completion_request, h]
  · intro f h; simp [ResponseRequest.to_chat_completion_request, h]

/-- Witness for C6 at an explicit named-function choice: it is downgraded to
`Auto`. -/
theorem tool_choice_translation_witness :
    (({ baseReq with
        tool_choice := some (ToolChoice.Function (FunctionChoice.mk "fn")) }
      : ResponseRequest).to_chat_completion_request []).tool_choice
      = some ChatToolChoice.Auto :=
  (tool_choice_translation
    { baseReq with tool_choice := some (ToolChoice.Function (FunctionChoice.mk "fn")) }
    []).2.2.2.2 (FunctionChoice.mk "fn") rfl

/-- C7: textual role parsing never fails — "user"/"assistant"/"system" map
to their variants and every other string coerces to `User` (the coercion is
logged, an effect outside the model), on both the `From<&str>` and the
`FromStr` path, which always agree. -/
theorem role_parsing_total :
    (Role.from_str_ref "user" = Role.User ∧
     Role.from_str_ref "assistant" = Role.Assistant ∧
     Role.from_str_ref "system" = Role.System) ∧
    (Role.from_str "user" = Except.ok Role.User ∧
     Role.from_str "assistant" = Except.ok Role.Assistant ∧
     Role.from_str "system" = Except.ok Role.System) ∧
    (∀ s : String, Role.from_str s = Except.ok (Role.from_str_ref s)) ∧
    (∀ s : String, s ≠ "user" → s ≠ "assistant" → s ≠ "system" →
      Role.from_str_ref s = Role.User ∧ Role.from_str s = Except.ok Role.User) := by
  refine ⟨⟨rfl, rfl, rfl⟩, ⟨rfl, rfl, rfl⟩, ?_, ?_⟩
  · intro s
    unfold Role.from_str Role.from_str_ref
    split_ifs <;> rfl
  · intro s h1 h2 h3
    constructor
    · unfold Role.from_str_ref
      rw [if_neg h1, if_neg h2, if_neg h3]
    · unfold Role.from_str
      rw [if_neg h1, if_neg h2, if_neg h3]

/-- Witness for C7 at the unknown role string "moderator". -/
theorem role_parsing_total_witness :
    Role.from_str_ref "moderator" = Role.User ∧
    Role.from_str "moderator" = Except.ok Role.User :=
  role_parsing_total.2.2.2 "moderator" (by decide) (by decide) (by decide)
